import Mathlib

/-!
# Verification of `pkg/reconciler/mutating_webhook.go`

A shallow embedding of `MutatingWebhookConfigurationReconciler.Reconcile` and
theorems about it.

The reconciler talks to three external collaborators: the store client
(`r.Get`, `r.Update`) and the certificate source
(`providers.GetCertFromKubernetes`).  They are parameters of the embedding:
each is a function of an abstract world state `σ` returning the next world
state and its answer.  Every call is recorded, with its answer, in an event
log, so that "performs no Update" or "exactly one write" are statements about
the log of a pass.
-/

namespace Reconciler

/-! ## Data model -/

/-- A Go `[]byte`; the bytes are opaque to the reconciler. -/
abbrev Bytes := List Nat

/-- The `types.NamespacedName` carried by a request. -/
structure NamespacedName where
  Namespace : String
  Name : String
deriving DecidableEq, Repr

/-- The `ctrl.Request`: `req.Name` is `req.NamespacedName.Name`. -/
structure Request where
  NamespacedName : NamespacedName
deriving DecidableEq, Repr

/-- The promoted field `req.Name`. -/
def Request.Name (req : Request) : String := req.NamespacedName.Name

/-- The `ctrl.Result`; `ctrl.Result{}` is its zero value. -/
structure Result where
  Requeue : Bool
  RequeueAfter : Nat
deriving DecidableEq, Repr

/-- The zero value `ctrl.Result{}`. -/
def Result.zero : Result := { Requeue := false, RequeueAfter := 0 }

/-- The `metav1.StatusReason` of an error, as `apierrors.ReasonForError` reads
it; `Unknown` for an error that carries no API status. -/
inductive StatusReason where
  | Unknown
  | NotFound
  | Conflict
  | AlreadyExists
  | Timeout
  | ServerTimeout
  | InternalError
  | ServiceUnavailable
deriving DecidableEq, Repr

/-- A non-nil Go `error`: its API status reason and its message.  A Go value
of type `error` is an `Option Error`, `none` being `nil`. -/
structure Error where
  Reason : StatusReason
  Msg : String
deriving DecidableEq, Repr

/-- The `apierrors.IsNotFound` test. -/
def IsNotFound (err : Error) : Bool := err.Reason == StatusReason.NotFound

/-- The `runtimeclient.IgnoreNotFound`: nil on a not-found error, every other
error unchanged. -/
def IgnoreNotFound (err : Error) : Option Error :=
  if IsNotFound err then none else some err

/-- The `errors.Errorf` of the certificate branch: a fresh error, with no API
status, whose message ends in the text of the cause. -/
def Errorf (format : String) (cause : Error) : Error :=
  { Reason := StatusReason.Unknown, Msg := format ++ cause.Msg }

/-- The `v1beta1.WebhookClientConfig`.  `CABundle` is a `[]byte`: `none` is the
nil slice, `some []` the empty non-nil slice. -/
structure WebhookClientConfig where
  URL : Option String
  Service : Option String
  CABundle : Option Bytes
deriving DecidableEq, Repr

/-- The `v1beta1.MutatingWebhook`.  The fields the reconciler never reads
(rules, policies, selectors, ...) are kept together in `Rest`. -/
structure MutatingWebhook where
  Name : String
  ClientConfig : WebhookClientConfig
  Rest : List String
deriving DecidableEq, Repr

/-- The `v1beta1.MutatingWebhookConfiguration`.  The metadata the reconciler
never reads (resource version, labels, ...) is kept together in `Meta`. -/
structure MutatingWebhookConfiguration where
  Name : String
  Namespace : String
  Meta : List String
  Webhooks : List MutatingWebhook
deriving DecidableEq, Repr

/-- The `certificate.Certificate` as far as the reconciler reads it:
`GetCertificateChain()` returns the field `CertChain`. -/
structure Certificate where
  CertChain : Option Bytes
deriving DecidableEq, Repr

/-- The method `GetCertificateChain`. -/
def Certificate.GetCertificateChain (c : Certificate) : Option Bytes := c.CertChain

/-- The answer of a fallible call: `(value, nil)` or `(_, err)`. -/
inductive Answer (α : Type) where
  | ok (value : α)
  | error (err : Error)
deriving DecidableEq, Repr

/-- One call to an external collaborator, with the answer it gave. -/
inductive Event where
  | Get (key : NamespacedName) (resp : Answer MutatingWebhookConfiguration)
  | GetCertFromKubernetes (ns : String) (secretName : String) (resp : Answer Certificate)
  | Update (obj : MutatingWebhookConfiguration) (resp : Option Error)
deriving DecidableEq, Repr

/-- The receiver `MutatingWebhookConfigurationReconciler`, together with what
the method body takes from outside this file: the embedded client's `Get` and
`Update`, `providers.GetCertFromKubernetes` (applied to `r.KubeClient`), and the
package constants `injector.MutatingWebhookName` and
`constants.WebhookCertificateSecretName`.  `σ` is the state of the world the
collaborators live in. -/
structure MutatingWebhookConfigurationReconciler (σ : Type) where
  Get : σ → NamespacedName → σ × Answer MutatingWebhookConfiguration
  Update : σ → MutatingWebhookConfiguration → σ × Option Error
  GetCertFromKubernetes : σ → String → String → σ × Answer Certificate
  OsmWebhook : String
  OsmNamespace : String
  MutatingWebhookName : String
  WebhookCertificateSecretName : String

/-- What a pass of `Reconcile` leaves behind: the world after it, the calls it
made in order, and the returned pair `(ctrl.Result, error)`. -/
structure Outcome (σ : Type) where
  world : σ
  log : List Event
  result : Result
  err : Option Error

/-! ## The method body -/

/-- The condition of line 47:
`webhook.Name == injector.MutatingWebhookName && webhook.ClientConfig.CABundle == nil`. -/
def needsCABundle {σ : Type} (r : MutatingWebhookConfigurationReconciler σ)
    (webhook : MutatingWebhook) : Bool :=
  webhook.Name == r.MutatingWebhookName && webhook.ClientConfig.CABundle == none

/-- The assignment of line 54 to one element:
`.ClientConfig.CABundle = chain`. -/
def MutatingWebhook.setCABundle (webhook : MutatingWebhook) (chain : Option Bytes) :
    MutatingWebhook :=
  { webhook with ClientConfig := { webhook.ClientConfig with CABundle := chain } }

/-- The variables live across the loop of lines 45-56. -/
structure LoopState (σ : Type) where
  world : σ
  log : List Event
  Webhooks : List MutatingWebhook
  shouldUpdate : Bool

/-- The format string of line 52. -/
def fetchErrorFormat : String :=
  "Error fetching injector webhook certificate from k8s secret: "

/-- One iteration of the loop of lines 45-56 at index `idx`: `Except.error` is
the early `return` of line 52. -/
def loopBody {σ : Type} (r : MutatingWebhookConfigurationReconciler σ) (idx : Nat)
    (st : LoopState σ) : Except (Outcome σ) (LoopState σ) :=
  match st.Webhooks.get? idx with
  | none => .ok st
  | some webhook =>
    if needsCABundle r webhook then
      match r.GetCertFromKubernetes st.world r.OsmNamespace r.WebhookCertificateSecretName with
      | (w, Answer.error err) =>
        .error { world := w
                 log := st.log ++ [Event.GetCertFromKubernetes r.OsmNamespace
                          r.WebhookCertificateSecretName (Answer.error err)]
                 result := Result.zero
                 err := some (Errorf fetchErrorFormat err) }
      | (w, Answer.ok webhookHandlerCert) =>
        .ok { world := w
              log := st.log ++ [Event.GetCertFromKubernetes r.OsmNamespace
                       r.WebhookCertificateSecretName (Answer.ok webhookHandlerCert)]
              Webhooks := st.Webhooks.modify
                (fun e => e.setCABundle webhookHandlerCert.GetCertificateChain) idx
              shouldUpdate := true }
    else .ok st

/-- The loop `for idx, webhook := range instance.Webhooks` of lines 45-56,
from index `idx` with `todo` iterations left. -/
def rangeLoop {σ : Type} (r : MutatingWebhookConfigurationReconciler σ) :
    Nat → Nat → LoopState σ → Except (Outcome σ) (LoopState σ)
  | 0, _, st => .ok st
  | todo + 1, idx, st =>
    match loopBody r idx st with
    | .error out => .error out
    | .ok st' => rangeLoop r todo (idx + 1) st'

/-- The method `Reconcile` (lines 32-76), started in world `w`. -/
def Reconcile {σ : Type} (r : MutatingWebhookConfigurationReconciler σ) (req : Request)
    (w : σ) : Outcome σ :=
  if req.Name = r.OsmWebhook then
    match r.Get w req.NamespacedName with
    | (w1, Answer.error err) =>
      { world := w1
        log := [Event.Get req.NamespacedName (Answer.error err)]
        result := Result.zero
        err := IgnoreNotFound err }
    | (w1, Answer.ok inst) =>
      let st0 : LoopState σ :=
        { world := w1
          log := [Event.Get req.NamespacedName (Answer.ok inst)]
          Webhooks := inst.Webhooks
          shouldUpdate := false }
      let scanned : Except (Outcome σ) (LoopState σ) :=
        if r.OsmWebhook = inst.Name then
          rangeLoop r inst.Webhooks.length 0 st0
        else .ok st0
      match scanned with
      | .error out => out
      | .ok st =>
        if !st.shouldUpdate then
          { world := st.world, log := st.log, result := Result.zero, err := none }
        else
          let updated : MutatingWebhookConfiguration :=
            { inst with Webhooks := st.Webhooks }
          match r.Update st.world updated with
          | (w2, some err) =>
            { world := w2
              log := st.log ++ [Event.Update updated (some err)]
              result := Result.zero
              err := IgnoreNotFound err }
          | (w2, none) =>
            { world := w2
              log := st.log ++ [Event.Update updated none]
              result := Result.zero
              err := none }
  else
    { world := w, log := [], result := Result.zero, err := none }

/-! ## Reading the log -/

/-- The event is a call to `Update`. -/
def Event.isUpdate : Event → Bool
  | Event.Update _ _ => true
  | _ => false

/-- The event is a call to `providers.GetCertFromKubernetes`. -/
def Event.isCertFetch : Event → Bool
  | Event.GetCertFromKubernetes _ _ _ => true
  | _ => false

/-- The call succeeded: it answered with a nil error. -/
def Event.succeeded : Event → Bool
  | Event.Get _ (Answer.ok _) => true
  | Event.GetCertFromKubernetes _ _ (Answer.ok _) => true
  | Event.Update _ none => true
  | _ => false

/-- The certificate fetch the reconciler makes, with its answer. -/
def certEvent {σ : Type} (r : MutatingWebhookConfigurationReconciler σ)
    (resp : Answer Certificate) : Event :=
  Event.GetCertFromKubernetes r.OsmNamespace r.WebhookCertificateSecretName resp

/-! ## The store behind the client -/

/-- The objects of the watched kind held by the resource store, by key. -/
abbrev Store := NamespacedName → Option MutatingWebhookConfiguration

/-- The key an object is stored under. -/
def MutatingWebhookConfiguration.key (o : MutatingWebhookConfiguration) : NamespacedName :=
  { Namespace := o.Namespace, Name := o.Name }

/-- The store after a whole-object write of `o`. -/
def Store.put (s : Store) (o : MutatingWebhookConfiguration) : Store :=
  fun k => if k = o.key then some o else s k

/-- The reads of the collaborators write nothing, for a view `stored` of the
world as a store: neither `Get` nor the certificate fetch changes a stored
object. -/
structure ReadsOnly {σ : Type} (r : MutatingWebhookConfigurationReconciler σ)
    (stored : σ → Store) : Prop where
  get_frame : ∀ s k, stored (r.Get s k).1 = stored s
  cert_frame : ∀ s ns n, stored (r.GetCertFromKubernetes s ns n).1 = stored s

/-- The contract of the store as far as writes go: reads write nothing, a
failed `Update` writes nothing, a successful `Update` writes the object it was
given, whole. -/
structure LawfulStore {σ : Type} (r : MutatingWebhookConfigurationReconciler σ)
    (stored : σ → Store) extends ReadsOnly r stored : Prop where
  update_error : ∀ s o e, (r.Update s o).2 = some e → stored (r.Update s o).1 = stored s
  update_ok : ∀ s o, (r.Update s o).2 = none → stored (r.Update s o).1 = (stored s).put o

/-- Collaborators that answer the same way whenever they are asked: the
answers of `Get` and `Update` are fixed by the stored objects, `Get` answers
with the object stored under the key, and the answer of the certificate source
does not depend on the world. -/
structure Repeatable {σ : Type} (r : MutatingWebhookConfigurationReconciler σ)
    (stored : σ → Store) extends LawfulStore r stored : Prop where
  get_same : ∀ s s' k, stored s = stored s' → (r.Get s k).2 = (r.Get s' k).2
  get_stored : ∀ s k o, (r.Get s k).2 = Answer.ok o → stored s k = some o
  update_same : ∀ s s' o, stored s = stored s' → (r.Update s o).2 = (r.Update s' o).2
  cert_same : ∀ s s' ns n,
    (r.GetCertFromKubernetes s ns n).2 = (r.GetCertFromKubernetes s' ns n).2

/-- The not-found error of the in-memory store. -/
def notFoundError : Error := { Reason := StatusReason.NotFound, Msg := "not found" }

/-- The world of the in-memory collaborators: the stored objects and the
number of certificate fetches answered so far. -/
structure World where
  store : Store
  certCalls : Nat

/-- An in-memory store and certificate source.  `getFault` and `updateFault`,
when set, make `Get` and `Update` fail with that error; `cert k` is what the
certificate source answers to its call number `k` (from 0). -/
def inMemory (getFault : Option Error) (cert : Nat → Answer Certificate)
    (updateFault : Option Error)
    (osmWebhook osmNamespace hookName secretName : String) :
    MutatingWebhookConfigurationReconciler World where
  Get := fun s k =>
    match getFault with
    | some e => (s, Answer.error e)
    | none =>
      match s.store k with
      | some o => (s, Answer.ok o)
      | none => (s, Answer.error notFoundError)
  Update := fun s o =>
    match updateFault with
    | some e => (s, some e)
    | none =>
      match s.store o.key with
      | some _ => ({ s with store := s.store.put o }, none)
      | none => (s, some notFoundError)
  GetCertFromKubernetes := fun s _ _ =>
    ({ s with certCalls := s.certCalls + 1 }, cert s.certCalls)
  OsmWebhook := osmWebhook
  OsmNamespace := osmNamespace
  MutatingWebhookName := hookName
  WebhookCertificateSecretName := secretName

/-- A store holding the one object `o`. -/
def Store.single (o : MutatingWebhookConfiguration) : Store :=
  fun k => if k = o.key then some o else none

/-! ## The loop as a recursion over the entries -/

/-- What the scan of a list of entries gives when no fetch fails. -/
structure Scanned (σ : Type) where
  world : σ
  events : List Event
  Webhooks : List MutatingWebhook
  shouldUpdate : Bool

/-- What the scan gives when a fetch fails. -/
structure ScanFailed (σ : Type) where
  world : σ
  events : List Event
  cause : Error

/-- The loop of lines 45-56 as a recursion over the entries still to visit:
iteration `idx` reads and writes element `idx` only. -/
def scan {σ : Type} (r : MutatingWebhookConfigurationReconciler σ) :
    List MutatingWebhook → σ → Except (ScanFailed σ) (Scanned σ)
  | [], w => .ok { world := w, events := [], Webhooks := [], shouldUpdate := false }
  | e :: rest, w =>
    if needsCABundle r e then
      match r.GetCertFromKubernetes w r.OsmNamespace r.WebhookCertificateSecretName with
      | (w1, Answer.error err) =>
        .error { world := w1, events := [certEvent r (Answer.error err)], cause := err }
      | (w1, Answer.ok c) =>
        match scan r rest w1 with
        | .error f => .error { f with events := certEvent r (Answer.ok c) :: f.events }
        | .ok s =>
          .ok { world := s.world
                events := certEvent r (Answer.ok c) :: s.events
                Webhooks := e.setCABundle c.GetCertificateChain :: s.Webhooks
                shouldUpdate := true }
    else
      match scan r rest w with
      | .error f => .error f
      | .ok s => .ok { s with Webhooks := e :: s.Webhooks }

/-- The state or early return the loop reaches from `st` when the scan of the
remaining entries gives `res` and `pre` are the entries already visited. -/
def resume {σ : Type} (st : LoopState σ) (pre : List MutatingWebhook) :
    Except (ScanFailed σ) (Scanned σ) → Except (Outcome σ) (LoopState σ)
  | .error f =>
    .error { world := f.world, log := st.log ++ f.events, result := Result.zero
             err := some (Errorf fetchErrorFormat f.cause) }
  | .ok s =>
    .ok { world := s.world, log := st.log ++ s.events, Webhooks := pre ++ s.Webhooks
          shouldUpdate := st.shouldUpdate || s.shouldUpdate }

/-- The rest of the method after the loop (lines 57-73), for the fetched
object `inst` and the result of the scan of its entries. -/
def finish {σ : Type} (r : MutatingWebhookConfigurationReconciler σ) (req : Request)
    (inst : MutatingWebhookConfiguration) :
    Except (ScanFailed σ) (Scanned σ) → Outcome σ
  | .error f =>
    { world := f.world
      log := Event.Get req.NamespacedName (Answer.ok inst) :: f.events
      result := Result.zero
      err := some (Errorf fetchErrorFormat f.cause) }
  | .ok s =>
    if s.shouldUpdate then
      { world := (r.Update s.world { inst with Webhooks := s.Webhooks }).1
        log := Event.Get req.NamespacedName (Answer.ok inst) :: s.events ++
          [Event.Update { inst with Webhooks := s.Webhooks }
            (r.Update s.world { inst with Webhooks := s.Webhooks }).2]
        result := Result.zero
        err := match (r.Update s.world { inst with Webhooks := s.Webhooks }).2 with
          | some err => IgnoreNotFound err
          | none => none }
    else
      { world := s.world
        log := Event.Get req.NamespacedName (Answer.ok inst) :: s.events
        result := Result.zero
        err := none }

/-- The relation between an entry before the scan and the same entry after it,
given the calls `evs` the scan made: an entry that needs a bundle gets the chain
of a certificate fetched by one of the calls, any other entry is unchanged. -/
def Patched {σ : Type} (r : MutatingWebhookConfigurationReconciler σ) (evs : List Event)
    (e e' : MutatingWebhook) : Prop :=
  if needsCABundle r e then
    ∃ c, certEvent r (Answer.ok c) ∈ evs ∧ e' = e.setCABundle c.GetCertificateChain
  else e' = e

/-! ## A concrete cluster -/

/-- The configured target name. -/
def osmWebhookName : String := "osm-webhook-osm"

/-- The name of the injector's entry. -/
def injectorHookName : String := "osm-inject.k8s.io"

/-- A trust bundle. -/
def bundleB : Bytes := [45, 45, 66]

/-- An entry that is not the injector's, with a bundle of its own. -/
def otherHook : MutatingWebhook :=
  { Name := "other"
    ClientConfig := { URL := none, Service := some "other-svc", CABundle := some [1, 2] }
    Rest := ["rules"] }

/-- The injector's entry with the given bundle. -/
def injectorHook (bundle : Option Bytes) : MutatingWebhook :=
  { Name := injectorHookName
    ClientConfig := { URL := none, Service := some "osm-injector", CABundle := bundle }
    Rest := ["rules"] }

/-- The watched object with the given name and entries. -/
def configNamed (name : String) (hooks : List MutatingWebhook) : MutatingWebhookConfiguration :=
  { Name := name, Namespace := "", Meta := ["rv-1"], Webhooks := hooks }

/-- The request for the object of the given name. -/
def requestFor (name : String) : Request :=
  { NamespacedName := { Namespace := "", Name := name } }

/-- The world holding the one object `o`, before any certificate fetch. -/
def worldWith (o : MutatingWebhookConfiguration) : World :=
  { store := Store.single o, certCalls := 0 }

/-- The in-memory reconciler for the target `osmWebhookName`. -/
def memReconciler (getFault : Option Error) (cert : Nat → Answer Certificate)
    (updateFault : Option Error) : MutatingWebhookConfigurationReconciler World :=
  inMemory getFault cert updateFault osmWebhookName "osm-system" injectorHookName
    "mutating-webhook-cert-secret"

/-- A certificate source that always answers with the chain `chain`. -/
def certAlways (chain : Option Bytes) : Nat → Answer Certificate :=
  fun _ => Answer.ok { CertChain := chain }

/-- A certificate source whose first answer is the chain `chain` and whose
later answers are the error `e`. -/
def certOnce (chain : Option Bytes) (e : Error) : Nat → Answer Certificate :=
  fun k => if k = 0 then Answer.ok { CertChain := chain } else Answer.error e

/-- A certificate source whose answers change over time: a nil chain to its
call number 1, the chain `bundleB` to every other call. -/
def certUnsteady : Nat → Answer Certificate :=
  fun k => if k = 1 then Answer.ok { CertChain := none }
    else Answer.ok { CertChain := some bundleB }

/-- A conflict error of the store. -/
def conflictError : Error := { Reason := StatusReason.Conflict, Msg := "object has been modified" }

/-- An error of the certificate source. -/
def secretError : Error := { Reason := StatusReason.Unknown, Msg := "secret unreadable" }

/-! ## Lemmas -/

theorem modify_at_length {α : Type} (f : α → α) (e : α) (rest : List α) :
    ∀ pre : List α, (pre ++ e :: rest).modify f pre.length = pre ++ f e :: rest
  | [] => by simp
  | a :: pre => by simp [modify_at_length f e rest pre]

theorem rangeLoop_eq_scan {σ : Type} (r : MutatingWebhookConfigurationReconciler σ) :
    ∀ (suf pre : List MutatingWebhook) (st : LoopState σ), st.Webhooks = pre ++ suf →
      rangeLoop r suf.length pre.length st = resume st pre (scan r suf st.world) := by
  intro suf
  induction suf with
  | nil =>
    intro pre st h
    cases st
    simp_all [rangeLoop, scan, resume]
  | cons e rest ih =>
    intro pre st h
    have hget : st.Webhooks.get? pre.length = some e := by
      rw [h, List.get?_eq_getElem?, List.getElem?_append_right (le_refl _)]; simp
    have hlen : (pre ++ [e]).length = pre.length + 1 := by simp
    simp only [List.length_cons, rangeLoop, loopBody, hget, scan]
    by_cases hn : needsCABundle r e = true
    · simp only [hn, if_true]
      rcases hc : r.GetCertFromKubernetes st.world r.OsmNamespace
          r.WebhookCertificateSecretName with ⟨w1, a⟩
      cases a with
      | error err => simp [resume, certEvent]
      | ok c =>
        have h' : (st.Webhooks.modify (fun e => e.setCABundle c.GetCertificateChain)
            pre.length) = (pre ++ [e.setCABundle c.GetCertificateChain]) ++ rest := by
          rw [h, modify_at_length]; simp
        have := ih (pre ++ [e.setCABundle c.GetCertificateChain])
          { world := w1
            log := st.log ++ [Event.GetCertFromKubernetes r.OsmNamespace
                       r.WebhookCertificateSecretName (Answer.ok c)]
            Webhooks := st.Webhooks.modify
                (fun e => e.setCABundle c.GetCertificateChain) pre.length
            shouldUpdate := true } h'
        simp only [List.length_append, List.length_singleton] at this
        simp only [this]
        cases scan r rest w1 <;> simp [resume, certEvent]
    · simp only [hn]
      have := ih (pre ++ [e]) st (by rw [h]; simp)
      rw [hlen] at this
      simp only [this, Bool.false_eq_true, if_false]
      cases scan r rest st.world <;> simp [resume]

/-- The four ways through `Reconcile`. -/
theorem Reconcile_cases {σ : Type} (r : MutatingWebhookConfigurationReconciler σ)
    (req : Request) (w : σ) :
    (req.Name ≠ r.OsmWebhook ∧
      Reconcile r req w = { world := w, log := [], result := Result.zero, err := none }) ∨
    (req.Name = r.OsmWebhook ∧ ∃ e, (r.Get w req.NamespacedName).2 = Answer.error e ∧
      Reconcile r req w =
        { world := (r.Get w req.NamespacedName).1
          log := [Event.Get req.NamespacedName (Answer.error e)]
          result := Result.zero, err := IgnoreNotFound e }) ∨
    (req.Name = r.OsmWebhook ∧ ∃ inst, (r.Get w req.NamespacedName).2 = Answer.ok inst ∧
      inst.Name ≠ r.OsmWebhook ∧
      Reconcile r req w =
        { world := (r.Get w req.NamespacedName).1
          log := [Event.Get req.NamespacedName (Answer.ok inst)]
          result := Result.zero, err := none }) ∨
    (req.Name = r.OsmWebhook ∧ ∃ inst, (r.Get w req.NamespacedName).2 = Answer.ok inst ∧
      inst.Name = r.OsmWebhook ∧
      Reconcile r req w =
        finish r req inst (scan r inst.Webhooks (r.Get w req.NamespacedName).1)) := by
  by_cases hreq : req.Name = r.OsmWebhook
  · right
    rcases hg : r.Get w req.NamespacedName with ⟨w1, a⟩
    cases a with
    | error e =>
      left
      exact ⟨hreq, e, rfl, by simp [Reconcile, hreq, hg]⟩
    | ok inst =>
      right
      by_cases hname : inst.Name = r.OsmWebhook
      · right
        refine ⟨hreq, inst, rfl, hname, ?_⟩
        have hloop := rangeLoop_eq_scan r inst.Webhooks []
          { world := w1, log := [Event.Get req.NamespacedName (Answer.ok inst)]
            Webhooks := inst.Webhooks, shouldUpdate := false } (by simp)
        simp only [List.length_nil] at hloop
        simp only [Reconcile, hreq, hg, if_true, hname.symm, hloop]
        cases hs : scan r inst.Webhooks w1 with
        | error f => simp [resume, finish]
        | ok s =>
          simp only [resume, finish, Bool.false_or, List.nil_append]
          cases hb : s.shouldUpdate with
          | false => simp
          | true =>
            simp only [Bool.not_true, Bool.false_eq_true, if_false, if_true]
            rcases hu : r.Update s.world { inst with Webhooks := s.Webhooks } with ⟨w2, a⟩
            cases a <;> simp
      · left
        refine ⟨hreq, inst, rfl, hname, ?_⟩
        have hname' : ¬ r.OsmWebhook = inst.Name := fun h => hname h.symm
        simp [Reconcile, hreq, hg, hname']
  · left
    exact ⟨hreq, by simp [Reconcile, hreq]⟩

/-! ## What the scan does -/

/-- Every call the scan makes is a certificate fetch with the reconciler's
namespace and secret name. -/
theorem scan_events {σ : Type} (r : MutatingWebhookConfigurationReconciler σ) :
    ∀ (l : List MutatingWebhook) (w : σ),
      (∀ s, scan r l w = .ok s → ∀ ev ∈ s.events, ∃ c, ev = certEvent r (Answer.ok c)) ∧
      (∀ f, scan r l w = .error f →
        certEvent r (Answer.error f.cause) ∈ f.events ∧
        ∀ ev ∈ f.events, ∃ a, ev = certEvent r a)
  | [], w => by simp [scan]
  | e :: rest, w => by
    by_cases hn : needsCABundle r e = true
    · rcases hc : r.GetCertFromKubernetes w r.OsmNamespace r.WebhookCertificateSecretName
        with ⟨w1, a⟩
      cases a with
      | error err =>
        simp only [scan, hn, hc, if_true]
        refine ⟨by simp, ?_⟩
        intro f hf
        cases hf
        simp
      | ok c =>
        have ih := scan_events r rest w1
        simp only [scan, hn, hc, if_true]
        cases hs : scan r rest w1 with
        | error f0 =>
          refine ⟨by simp, ?_⟩
          intro f hf
          cases hf
          have h2 := ih.2 f0 hs
          refine ⟨List.mem_cons_of_mem _ h2.1, ?_⟩
          intro ev hev
          rcases List.mem_cons.1 hev with h | h
          · exact ⟨_, h⟩
          · exact h2.2 ev h
        | ok s0 =>
          refine ⟨?_, by simp⟩
          intro s hs'
          cases hs'
          intro ev hev
          rcases List.mem_cons.1 hev with h | h
          · exact ⟨_, h⟩
          · exact ih.1 s0 hs ev h
    · have ih := scan_events r rest w
      simp only [scan, hn, Bool.false_eq_true, if_false]
      cases hs : scan r rest w with
      | error f0 =>
        refine ⟨by simp, ?_⟩
        intro f hf
        cases hf
        exact ih.2 f0 hs
      | ok s0 =>
        refine ⟨?_, by simp⟩
        intro s hs'
        cases hs'
        exact ih.1 s0 hs

theorem Patched.mono {σ : Type} {r : MutatingWebhookConfigurationReconciler σ}
    {evs evs' : List Event} (h : ∀ ev ∈ evs, ev ∈ evs') {e e' : MutatingWebhook}
    (hp : Patched r evs e e') : Patched r evs' e e' := by
  unfold Patched at *
  split
  · rename_i hn
    rw [if_pos hn] at hp
    rcases hp with ⟨c, hc, he⟩
    exact ⟨c, h _ hc, he⟩
  · rename_i hn
    rw [if_neg hn] at hp
    exact hp

/-- A scan in which no fetch fails patches the entries one by one, and asks for
an update exactly when some entry needed a bundle. -/
theorem scan_ok {σ : Type} (r : MutatingWebhookConfigurationReconciler σ) :
    ∀ (l : List MutatingWebhook) (w : σ) (s : Scanned σ), scan r l w = .ok s →
      List.Forall₂ (Patched r s.events) l s.Webhooks ∧
      s.shouldUpdate = l.any (needsCABundle r)
  | [], w, s, h => by
    simp only [scan, Except.ok.injEq] at h
    subst h
    simp
  | e :: rest, w, s, h => by
    by_cases hn : needsCABundle r e = true
    · rcases hc : r.GetCertFromKubernetes w r.OsmNamespace r.WebhookCertificateSecretName
        with ⟨w1, a⟩
      cases a with
      | error err => simp [scan, hn, hc] at h
      | ok c =>
        simp only [scan, hn, hc, if_true] at h
        cases hs : scan r rest w1 with
        | error f0 => simp [hs] at h
        | ok s0 =>
          simp only [hs, Except.ok.injEq] at h
          subst h
          have ih := scan_ok r rest w1 s0 hs
          refine ⟨List.Forall₂.cons ?_ ?_, by simp [hn]⟩
          · unfold Patched
            rw [if_pos hn]
            exact ⟨c, List.mem_cons_self _ _, rfl⟩
          · exact ih.1.imp (fun _ _ hp => hp.mono (fun ev hev => List.mem_cons_of_mem _ hev))
    · simp only [scan, hn, Bool.false_eq_true, if_false] at h
      cases hs : scan r rest w with
      | error f0 => simp [hs] at h
      | ok s0 =>
        simp only [hs, Except.ok.injEq] at h
        subst h
        have ih := scan_ok r rest w s0 hs
        refine ⟨List.Forall₂.cons ?_ ih.1, ?_⟩
        · unfold Patched
          rw [if_neg hn]
        · simp only [List.any_cons, ih.2]
          simp at hn
          simp [hn]

/-- The scan writes nothing to the store when the certificate fetch is a read. -/
theorem scan_frame {σ : Type} (r : MutatingWebhookConfigurationReconciler σ)
    (stored : σ → Store)
    (hread : ∀ s ns n, stored (r.GetCertFromKubernetes s ns n).1 = stored s) :
    ∀ (l : List MutatingWebhook) (w : σ),
      (∀ s, scan r l w = .ok s → stored s.world = stored w) ∧
      (∀ f, scan r l w = .error f → stored f.world = stored w)
  | [], w => by simp [scan]
  | e :: rest, w => by
    by_cases hn : needsCABundle r e = true
    · have hr := hread w r.OsmNamespace r.WebhookCertificateSecretName
      rcases hc : r.GetCertFromKubernetes w r.OsmNamespace r.WebhookCertificateSecretName
        with ⟨w1, a⟩
      rw [hc] at hr
      simp only at hr
      cases a with
      | error err =>
        simp only [scan, hn, hc, if_true]
        refine ⟨by simp, ?_⟩
        intro f hf
        cases hf
        exact hr
      | ok c =>
        have ih := scan_frame r stored hread rest w1
        simp only [scan, hn, hc, if_true]
        cases hs : scan r rest w1 with
        | error f0 =>
          refine ⟨by simp, ?_⟩
          intro f hf
          cases hf
          exact (ih.2 f0 hs).trans hr
        | ok s0 =>
          refine ⟨?_, by simp⟩
          intro s hs'
          cases hs'
          exact (ih.1 s0 hs).trans hr
    · have ih := scan_frame r stored hread rest w
      simp only [scan, hn, Bool.false_eq_true, if_false]
      cases hs : scan r rest w with
      | error f0 =>
        refine ⟨by simp, ?_⟩
        intro f hf
        cases hf
        exact ih.2 f0 hs
      | ok s0 =>
        refine ⟨?_, by simp⟩
        intro s hs'
        cases hs'
        exact ih.1 s0 hs

/-- A scan over entries none of which needs a bundle makes no call and changes
nothing. -/
theorem scan_none {σ : Type} (r : MutatingWebhookConfigurationReconciler σ) :
    ∀ (l : List MutatingWebhook) (w : σ), l.any (needsCABundle r) = false →
      scan r l w = .ok { world := w, events := [], Webhooks := l, shouldUpdate := false }
  | [], w, _ => by simp [scan]
  | e :: rest, w, h => by
    simp only [List.any_cons, Bool.or_eq_false_iff] at h
    simp [scan, h.1, scan_none r rest w h.2]

theorem needsCABundle_iff {σ : Type} (r : MutatingWebhookConfigurationReconciler σ)
    (e : MutatingWebhook) :
    needsCABundle r e = true ↔ e.Name = r.MutatingWebhookName ∧ e.ClientConfig.CABundle = none := by
  simp [needsCABundle]

theorem forall₂_getElem? {α β : Type} {R : α → β → Prop} {l : List α} {l' : List β}
    (h : List.Forall₂ R l l') :
    ∀ (i : Nat) (e : α), l[i]? = some e → ∃ e', l'[i]? = some e' ∧ R e e' := by
  induction h with
  | nil => intro i e he; simp at he
  | cons hab _ ih =>
    intro i e he
    cases i with
    | zero =>
      simp only [List.getElem?_cons_zero, Option.some.injEq] at he
      subst he
      exact ⟨_, by simp, hab⟩
    | succ j =>
      simp only [List.getElem?_cons_succ] at he
      rcases ih j e he with ⟨e', he', hr⟩
      exact ⟨e', by simpa using he', hr⟩

/-- A pass whose log holds an `Update` went through the whole method: the
target was requested and fetched, no fetch of the scan failed, the scan asked
for an update, and the object written is the fetched one with the scanned
entries. -/
theorem update_in_log {σ : Type} (r : MutatingWebhookConfigurationReconciler σ)
    (req : Request) (w : σ) (updated : MutatingWebhookConfiguration) (resp : Option Error)
    (hupd : Event.Update updated resp ∈ (Reconcile r req w).log) :
    req.Name = r.OsmWebhook ∧
    ∃ inst s, (r.Get w req.NamespacedName).2 = Answer.ok inst ∧ inst.Name = r.OsmWebhook ∧
      scan r inst.Webhooks (r.Get w req.NamespacedName).1 = .ok s ∧ s.shouldUpdate = true ∧
      updated = { inst with Webhooks := s.Webhooks } ∧
      resp = (r.Update s.world updated).2 ∧
      Reconcile r req w = finish r req inst (.ok s) := by
  rcases Reconcile_cases r req w with ⟨-, h⟩ | ⟨-, e, -, h⟩ | ⟨-, i, -, -, h⟩ |
    ⟨hreq, inst, hi, hname, h⟩
  · rw [h] at hupd; simp at hupd
  · rw [h] at hupd; simp at hupd
  · rw [h] at hupd; simp at hupd
  · refine ⟨hreq, inst, ?_⟩
    cases hs : scan r inst.Webhooks (r.Get w req.NamespacedName).1 with
    | error f =>
      rw [h, hs] at hupd
      simp only [finish, List.mem_cons] at hupd
      rcases hupd with hupd | hupd
      · cases hupd
      · rcases ((scan_events r _ _).2 f hs).2 _ hupd with ⟨a, ha⟩
        simp [certEvent] at ha
    | ok s =>
      rw [hs] at h
      rw [h] at hupd
      have hev := (scan_events r _ _).1 s hs
      cases hb : s.shouldUpdate with
      | false =>
        simp only [finish, hb, Bool.false_eq_true, if_false, List.mem_cons] at hupd
        rcases hupd with hupd | hupd
        · cases hupd
        · rcases hev _ hupd with ⟨c, hc⟩
          simp [certEvent] at hc
      | true =>
        simp only [finish, hb, if_true, List.mem_cons, List.mem_append,
          List.not_mem_nil, or_false] at hupd
        rcases hupd with (hupd | hupd) | hupd
        · cases hupd
        · rcases hev _ hupd with ⟨c, hc⟩
          simp [certEvent] at hc
        · simp only [Event.Update.injEq] at hupd
          refine ⟨s, hi, hname, rfl, hb, hupd.1, ?_, h⟩
          rw [hupd.2, hupd.1]

/-- A pass whose log holds a failed certificate fetch returned from inside the
loop. -/
theorem fetch_error_in_log {σ : Type} (r : MutatingWebhookConfigurationReconciler σ)
    (req : Request) (w : σ) (ns n : String) (e : Error)
    (hfail : Event.GetCertFromKubernetes ns n (Answer.error e) ∈ (Reconcile r req w).log) :
    ∃ inst f, (r.Get w req.NamespacedName).2 = Answer.ok inst ∧
      scan r inst.Webhooks (r.Get w req.NamespacedName).1 = .error f ∧
      Reconcile r req w = finish r req inst (.error f) := by
  rcases Reconcile_cases r req w with ⟨-, h⟩ | ⟨-, e, -, h⟩ | ⟨-, i, -, -, h⟩ |
    ⟨-, inst, hi, -, h⟩
  · rw [h] at hfail; simp at hfail
  · rw [h] at hfail; simp at hfail
  · rw [h] at hfail; simp at hfail
  · refine ⟨inst, ?_⟩
    cases hs : scan r inst.Webhooks (r.Get w req.NamespacedName).1 with
    | error f => exact ⟨f, hi, rfl, by rw [h, hs]⟩
    | ok s =>
      rw [hs] at h
      rw [h] at hfail
      have hev := (scan_events r _ _).1 s hs
      exfalso
      cases hb : s.shouldUpdate with
      | false =>
        simp only [finish, hb, Bool.false_eq_true, if_false, List.mem_cons] at hfail
        rcases hfail with hfail | hfail
        · cases hfail
        · rcases hev _ hfail with ⟨c, hc⟩
          simp [certEvent] at hc
      | true =>
        simp only [finish, hb, if_true, List.mem_cons, List.mem_append,
          List.not_mem_nil, or_false] at hfail
        rcases hfail with (hfail | hfail) | hfail
        · cases hfail
        · rcases hev _ hfail with ⟨c, hc⟩
          simp [certEvent] at hc
        · cases hfail

theorem forall₂_mem_right {α β : Type} {R : α → β → Prop} {l : List α} {l' : List β}
    (h : List.Forall₂ R l l') : ∀ e' ∈ l', ∃ e ∈ l, R e e' := by
  induction h with
  | nil => intro e' he'; simp at he'
  | cons hab _ ih =>
    intro e' he'
    rcases List.mem_cons.1 he' with rfl | he'
    · exact ⟨_, List.mem_cons_self _ _, hab⟩
    · rcases ih e' he' with ⟨e, he, hr⟩
      exact ⟨e, List.mem_cons_of_mem _ he, hr⟩

/-- A pass over a fetched object none of whose entries needs a bundle: one
`Get`, nothing else, success. -/
theorem Reconcile_none_needed {σ : Type} (r : MutatingWebhookConfigurationReconciler σ)
    (req : Request) (w : σ) (inst : MutatingWebhookConfiguration)
    (hget : (r.Get w req.NamespacedName).2 = Answer.ok inst)
    (hnone : inst.Webhooks.any (needsCABundle r) = false) :
    (∀ ev ∈ (Reconcile r req w).log, ev.isUpdate = false ∧ ev.isCertFetch = false) ∧
    (Reconcile r req w).result = Result.zero ∧ (Reconcile r req w).err = none ∧
    (req.Name = r.OsmWebhook →
      (Reconcile r req w).log = [Event.Get req.NamespacedName (Answer.ok inst)]) := by
  rcases Reconcile_cases r req w with ⟨hne, h⟩ | ⟨-, e, he, -⟩ | ⟨-, i, hi, -, h⟩ |
    ⟨-, i, hi, -, h⟩
  · rw [h]
    exact ⟨by simp, rfl, rfl, fun hreq => absurd hreq hne⟩
  · rw [hget] at he; cases he
  · rw [hget] at hi
    cases hi
    rw [h]
    simp [Event.isUpdate, Event.isCertFetch]
  · rw [hget] at hi
    cases hi
    rw [h, scan_none r inst.Webhooks _ hnone]
    simp [finish, Event.isUpdate, Event.isCertFetch]

/-! ## The in-memory collaborators keep the contract -/

theorem inMemory_lawful (getFault : Option Error) (cert : Nat → Answer Certificate)
    (updateFault : Option Error) (a b c d : String) :
    LawfulStore (inMemory getFault cert updateFault a b c d) World.store where
  get_frame := by
    intro s k
    cases getFault with
    | some e => rfl
    | none =>
      simp only [inMemory]
      cases s.store k <;> rfl
  cert_frame := by
    intro s ns n
    rfl
  update_error := by
    intro s o e h
    cases updateFault with
    | some e' => rfl
    | none =>
      simp only [inMemory] at h ⊢
      cases hs : s.store o.key with
      | none => rfl
      | some o' => simp [hs] at h
  update_ok := by
    intro s o h
    cases updateFault with
    | some e' => simp [inMemory] at h
    | none =>
      simp only [inMemory] at h ⊢
      cases hs : s.store o.key with
      | none => simp [hs] at h
      | some o' => rfl

theorem inMemory_repeatable (getFault : Option Error) (answer : Answer Certificate)
    (updateFault : Option Error) (a b c d : String) :
    Repeatable (inMemory getFault (fun _ => answer) updateFault a b c d) World.store where
  toLawfulStore := inMemory_lawful getFault (fun _ => answer) updateFault a b c d
  get_same := by
    intro s s' k h
    cases getFault with
    | some e => rfl
    | none =>
      simp only [inMemory, ← h]
      cases s.store k <;> rfl
  get_stored := by
    intro s k o h
    cases getFault with
    | some e => simp [inMemory] at h
    | none =>
      simp only [inMemory] at h
      cases hs : s.store k with
      | none => simp [hs] at h
      | some o' =>
        simp only [hs, Answer.ok.injEq] at h
        rw [h]
  update_same := by
    intro s s' o h
    cases updateFault with
    | some e => rfl
    | none =>
      simp only [inMemory, ← h]
      cases s.store o.key <;> rfl
  cert_same := by
    intro s s' ns n
    rfl

/-! ## Two passes -/

theorem setCABundle_idem (e : MutatingWebhook) (chain : Option Bytes) :
    (e.setCABundle chain).setCABundle chain = e.setCABundle chain := rfl

/-- With a certificate source whose answer does not depend on the world, a scan
of the same entries from another world goes the same way. -/
theorem scan_same {σ : Type} (r : MutatingWebhookConfigurationReconciler σ)
    (hcert : ∀ s s' ns n,
      (r.GetCertFromKubernetes s ns n).2 = (r.GetCertFromKubernetes s' ns n).2) :
    ∀ (l : List MutatingWebhook) (w w' : σ) (s : Scanned σ), scan r l w = .ok s →
      ∃ s', scan r l w' = .ok s' ∧ s'.Webhooks = s.Webhooks ∧ s'.shouldUpdate = s.shouldUpdate
  | [], w, w', s, h => by
    simp only [scan, Except.ok.injEq] at h
    subst h
    exact ⟨_, rfl, rfl, rfl⟩
  | e :: rest, w, w', s, h => by
    by_cases hn : needsCABundle r e = true
    · have hc' := hcert w w' r.OsmNamespace r.WebhookCertificateSecretName
      rcases hc : r.GetCertFromKubernetes w r.OsmNamespace r.WebhookCertificateSecretName
        with ⟨w1, a⟩
      rcases hd : r.GetCertFromKubernetes w' r.OsmNamespace r.WebhookCertificateSecretName
        with ⟨w1', a'⟩
      rw [hc, hd] at hc'
      simp only at hc'
      subst hc'
      cases a with
      | error err => simp [scan, hn, hc] at h
      | ok c =>
        simp only [scan, hn, hc, if_true] at h
        cases hs : scan r rest w1 with
        | error f0 => simp [hs] at h
        | ok s0 =>
          simp only [hs, Except.ok.injEq] at h
          subst h
          rcases scan_same r hcert rest w1 w1' s0 hs with ⟨s0', hs0', hw, -⟩
          refine ⟨{ world := s0'.world, events := certEvent r (Answer.ok c) :: s0'.events
                    Webhooks := e.setCABundle c.GetCertificateChain :: s0'.Webhooks
                    shouldUpdate := true }, ?_, ?_, rfl⟩
          · simp only [scan, hn, hd, if_true, hs0']
          · simp [hw]
    · simp only [scan, hn, Bool.false_eq_true, if_false] at h
      cases hs : scan r rest w with
      | error f0 => simp [hs] at h
      | ok s0 =>
        simp only [hs, Except.ok.injEq] at h
        subst h
        rcases scan_same r hcert rest w w' s0 hs with ⟨s0', hs0', hw, hb⟩
        refine ⟨{ s0' with Webhooks := e :: s0'.Webhooks }, ?_, ?_, ?_⟩
        · simp only [scan, hn, Bool.false_eq_true, if_false, hs0']
        · simp [hw]
        · simp [hb]

/-- With a certificate source whose answer does not depend on the world, a scan
of entries that a scan produced changes none of them. -/
theorem scan_rescan {σ : Type} (r : MutatingWebhookConfigurationReconciler σ)
    (hcert : ∀ s s' ns n,
      (r.GetCertFromKubernetes s ns n).2 = (r.GetCertFromKubernetes s' ns n).2) :
    ∀ (l : List MutatingWebhook) (w w' : σ) (s s2 : Scanned σ), scan r l w = .ok s →
      scan r s.Webhooks w' = .ok s2 → s2.Webhooks = s.Webhooks
  | [], w, w', s, s2, h, h2 => by
    simp only [scan, Except.ok.injEq] at h
    subst h
    simp only [scan, Except.ok.injEq] at h2
    subst h2
    rfl
  | e :: rest, w, w', s, s2, h, h2 => by
    by_cases hn : needsCABundle r e = true
    · have hc' := hcert w w' r.OsmNamespace r.WebhookCertificateSecretName
      rcases hc : r.GetCertFromKubernetes w r.OsmNamespace r.WebhookCertificateSecretName
        with ⟨w1, a⟩
      rcases hd : r.GetCertFromKubernetes w' r.OsmNamespace r.WebhookCertificateSecretName
        with ⟨w1', a'⟩
      rw [hc, hd] at hc'
      simp only at hc'
      subst hc'
      cases a with
      | error err => simp [scan, hn, hc] at h
      | ok c =>
        simp only [scan, hn, hc, if_true] at h
        cases hs : scan r rest w1 with
        | error f0 => simp [hs] at h
        | ok s0 =>
          simp only [hs, Except.ok.injEq] at h
          subst h
          simp only at h2 ⊢
          by_cases hn' : needsCABundle r (e.setCABundle c.GetCertificateChain) = true
          · simp only [scan, hn', hd, if_true] at h2
            cases hs2 : scan r s0.Webhooks w1' with
            | error f0 => simp [hs2] at h2
            | ok s3 =>
              simp only [hs2, Except.ok.injEq] at h2
              subst h2
              have ih := scan_rescan r hcert rest w1 w1' s0 s3 hs hs2
              simp [ih, setCABundle_idem]
          · simp only [scan, hn', Bool.false_eq_true, if_false] at h2
            cases hs2 : scan r s0.Webhooks w' with
            | error f0 => simp [hs2] at h2
            | ok s3 =>
              simp only [hs2, Except.ok.injEq] at h2
              subst h2
              have ih := scan_rescan r hcert rest w1 w' s0 s3 hs hs2
              simp [ih]
    · simp only [scan, hn, Bool.false_eq_true, if_false] at h
      cases hs : scan r rest w with
      | error f0 => simp [hs] at h
      | ok s0 =>
        simp only [hs, Except.ok.injEq] at h
        subst h
        simp only [scan, hn, Bool.false_eq_true, if_false] at h2
        cases hs2 : scan r s0.Webhooks w' with
        | error f0 => simp [hs2] at h2
        | ok s3 =>
          simp only [hs2, Except.ok.injEq] at h2
          subst h2
          have ih := scan_rescan r hcert rest w w' s0 s3 hs hs2
          simp [ih]

theorem Store.put_put (st : Store) (o : MutatingWebhookConfiguration) :
    (st.put o).put o = st.put o := by
  funext k
  simp only [Store.put]
  split <;> rfl

/-- What a pass does to the stored objects: nothing, or the one write of the
fetched target object with its scanned entries. -/
theorem Reconcile_stored {σ : Type} (r : MutatingWebhookConfigurationReconciler σ)
    (stored : σ → Store) (hlaw : LawfulStore r stored) (req : Request) (w : σ) :
    stored (Reconcile r req w).world = stored w ∨
    ∃ inst s, (r.Get w req.NamespacedName).2 = Answer.ok inst ∧
      scan r inst.Webhooks (r.Get w req.NamespacedName).1 = .ok s ∧
      stored (Reconcile r req w).world = (stored w).put { inst with Webhooks := s.Webhooks } := by
  rcases Reconcile_cases r req w with ⟨-, h⟩ | ⟨-, e, -, h⟩ | ⟨-, i, -, -, h⟩ |
    ⟨-, inst, hi, -, h⟩
  · left; rw [h]
  · left; rw [h]; exact hlaw.get_frame _ _
  · left; rw [h]; exact hlaw.get_frame _ _
  · have hfr := scan_frame r stored hlaw.cert_frame inst.Webhooks (r.Get w req.NamespacedName).1
    have hg := hlaw.get_frame w req.NamespacedName
    cases hs : scan r inst.Webhooks (r.Get w req.NamespacedName).1 with
    | error f =>
      left
      rw [h, hs]
      simp only [finish]
      rw [hfr.2 f hs, hg]
    | ok s =>
      rw [hs] at h
      cases hb : s.shouldUpdate with
      | false =>
        left
        rw [h]
        simp only [finish, hb, Bool.false_eq_true, if_false]
        rw [hfr.1 s hs, hg]
      | true =>
        cases hu : (r.Update s.world { inst with Webhooks := s.Webhooks }).2 with
        | some e =>
          left
          rw [h]
          simp only [finish, hb, if_true]
          rw [hlaw.update_error _ _ e hu, hfr.1 s hs, hg]
        | none =>
          right
          refine ⟨inst, s, hi, hs, ?_⟩
          rw [h]
          simp only [finish, hb, if_true]
          rw [hlaw.update_ok _ _ hu, hfr.1 s hs, hg]

theorem Reconcile_other_request {σ : Type} (r : MutatingWebhookConfigurationReconciler σ)
    (req : Request) (w : σ) (hne : req.Name ≠ r.OsmWebhook) :
    Reconcile r req w = { world := w, log := [], result := Result.zero, err := none } := by
  simp [Reconcile, hne]

theorem Reconcile_get_failed {σ : Type} (r : MutatingWebhookConfigurationReconciler σ)
    (req : Request) (w : σ) (e : Error) (hreq : req.Name = r.OsmWebhook)
    (hget : (r.Get w req.NamespacedName).2 = Answer.error e) :
    Reconcile r req w =
      { world := (r.Get w req.NamespacedName).1
        log := [Event.Get req.NamespacedName (Answer.error e)]
        result := Result.zero, err := IgnoreNotFound e } := by
  rcases Reconcile_cases r req w with ⟨hne, -⟩ | ⟨-, e', he, h⟩ | ⟨-, i, hi, -, -⟩ |
    ⟨-, i, hi, -, -⟩
  · exact absurd hreq hne
  · rw [hget] at he; cases he; exact h
  · rw [hget] at hi; cases hi
  · rw [hget] at hi; cases hi

theorem Reconcile_other_name {σ : Type} (r : MutatingWebhookConfigurationReconciler σ)
    (req : Request) (w : σ) (inst : MutatingWebhookConfiguration)
    (hreq : req.Name = r.OsmWebhook)
    (hget : (r.Get w req.NamespacedName).2 = Answer.ok inst)
    (hname : inst.Name ≠ r.OsmWebhook) :
    Reconcile r req w =
      { world := (r.Get w req.NamespacedName).1
        log := [Event.Get req.NamespacedName (Answer.ok inst)]
        result := Result.zero, err := none } := by
  rcases Reconcile_cases r req w with ⟨hne, -⟩ | ⟨-, e', he, -⟩ | ⟨-, i, hi, -, h⟩ |
    ⟨-, i, hi, hn, -⟩
  · exact absurd hreq hne
  · rw [hget] at he; cases he
  · rw [hget] at hi; cases hi; exact h
  · rw [hget] at hi; cases hi; exact absurd hn hname

theorem Reconcile_target {σ : Type} (r : MutatingWebhookConfigurationReconciler σ)
    (req : Request) (w : σ) (inst : MutatingWebhookConfiguration)
    (hreq : req.Name = r.OsmWebhook)
    (hget : (r.Get w req.NamespacedName).2 = Answer.ok inst)
    (hname : inst.Name = r.OsmWebhook) :
    Reconcile r req w =
      finish r req inst (scan r inst.Webhooks (r.Get w req.NamespacedName).1) := by
  rcases Reconcile_cases r req w with ⟨hne, -⟩ | ⟨-, e', he, -⟩ | ⟨-, i, hi, hn, -⟩ |
    ⟨-, i, hi, -, h⟩
  · exact absurd hreq hne
  · rw [hget] at he; cases he
  · rw [hget] at hi; cases hi; exact absurd hname hn
  · rw [hget] at hi; cases hi; exact h

/-- What the rest of the method does to the stored objects. -/
theorem finish_stored {σ : Type} (r : MutatingWebhookConfigurationReconciler σ)
    (stored : σ → Store) (hlaw : LawfulStore r stored) (req : Request)
    (inst : MutatingWebhookConfiguration) (s : Scanned σ) :
    stored (finish r req inst (.ok s)).world =
      if s.shouldUpdate then
        match (r.Update s.world { inst with Webhooks := s.Webhooks }).2 with
        | some _ => stored s.world
        | none => (stored s.world).put { inst with Webhooks := s.Webhooks }
      else stored s.world := by
  cases hb : s.shouldUpdate with
  | false => simp [finish, hb]
  | true =>
    simp only [finish, hb, if_true]
    cases hu : (r.Update s.world { inst with Webhooks := s.Webhooks }).2 with
    | some e => exact hlaw.update_error _ _ e hu
    | none => exact hlaw.update_ok _ _ hu

/-- With collaborators that answer the same way whenever asked, two passes
started from worlds holding the same stored objects leave the same stored
objects. -/
theorem Reconcile_stored_same {σ : Type} (r : MutatingWebhookConfigurationReconciler σ)
    (stored : σ → Store) (hrep : Repeatable r stored) (req : Request) (w w' : σ)
    (hw : stored w = stored w') :
    stored (Reconcile r req w).world = stored (Reconcile r req w').world := by
  have hlaw := hrep.toLawfulStore
  have hg := hrep.get_same w w' req.NamespacedName hw
  have hf := hlaw.get_frame w req.NamespacedName
  have hf' := hlaw.get_frame w' req.NamespacedName
  rcases Reconcile_cases r req w with ⟨hne, h⟩ | ⟨hreq, e, he, h⟩ | ⟨hreq, i, hi, hname, h⟩ |
    ⟨hreq, i, hi, hname, h⟩
  · rw [h, Reconcile_other_request r req w' hne]
    exact hw
  · rw [h, Reconcile_get_failed r req w' e hreq (hg ▸ he)]
    simp only
    rw [hf, hf', hw]
  · rw [h, Reconcile_other_name r req w' i hreq (hg ▸ hi) hname]
    simp only
    rw [hf, hf', hw]
  rw [h, Reconcile_target r req w' i hreq (hg ▸ hi) hname]
  have hfr := scan_frame r stored hlaw.cert_frame i.Webhooks (r.Get w req.NamespacedName).1
  have hfr' := scan_frame r stored hlaw.cert_frame i.Webhooks (r.Get w' req.NamespacedName).1
  cases hs : scan r i.Webhooks (r.Get w req.NamespacedName).1 with
  | error f =>
    cases hs' : scan r i.Webhooks (r.Get w' req.NamespacedName).1 with
    | error f' =>
      simp only [finish]
      rw [hfr.2 f hs, hfr'.2 f' hs', hf, hf', hw]
    | ok s' =>
      rcases scan_same r hrep.cert_same i.Webhooks _ (r.Get w req.NamespacedName).1 s' hs'
        with ⟨s, hs2, -, -⟩
      rw [hs] at hs2
      cases hs2
  | ok s =>
    rcases scan_same r hrep.cert_same i.Webhooks _ (r.Get w' req.NamespacedName).1 s hs
      with ⟨s', hs', hws, hbs⟩
    rw [hs']
    have hst : stored s.world = stored s'.world := by
      rw [hfr.1 s hs, hfr'.1 s' hs', hf, hf', hw]
    rw [finish_stored r stored hlaw, finish_stored r stored hlaw, hws, hbs, hst,
      hrep.update_same s.world s'.world _ hst]

/-! ## The claims -/

/-- C2: when the fetched object has a non-empty CA bundle on every entry named
`injector.MutatingWebhookName`, whatever those bundles hold and whatever the
certificate source would answer, `Reconcile` makes no `Update` call and no
certificate fetch, and returns the zero `Result` with a nil error. -/
theorem Reconcile_compliant_is_noop {σ : Type}
    (r : MutatingWebhookConfigurationReconciler σ) (req : Request) (w : σ)
    (inst : MutatingWebhookConfiguration)
    (hget : (r.Get w req.NamespacedName).2 = Answer.ok inst)
    (hbundle : ∀ e ∈ inst.Webhooks, e.Name = r.MutatingWebhookName →
      ∃ b, e.ClientConfig.CABundle = some b ∧ b ≠ []) :
    (∀ ev ∈ (Reconcile r req w).log, ev.isUpdate = false ∧ ev.isCertFetch = false) ∧
    (Reconcile r req w).result = Result.zero ∧ (Reconcile r req w).err = none := by
  have hnone : inst.Webhooks.any (needsCABundle r) = false := by
    rw [List.any_eq_false]
    intro e he hn
    simp only [needsCABundle, Bool.and_eq_true, beq_iff_eq] at hn
    rcases hbundle e he hn.1 with ⟨b, hb, -⟩
    rw [hb] at hn
    exact absurd hn.2 (by simp)
  have h := Reconcile_none_needed r req w inst hget hnone
  exact ⟨h.1, h.2.1, h.2.2.1⟩

/-- C2 at a concrete input: the injector entry already carries a bundle that
differs from the one the certificate source holds. -/
theorem Reconcile_compliant_is_noop_witness :
    ((memReconciler none (certAlways (some bundleB)) none).Get
        (worldWith (configNamed osmWebhookName [otherHook, injectorHook (some [7])]))
        (requestFor osmWebhookName).NamespacedName).2 =
      Answer.ok (configNamed osmWebhookName [otherHook, injectorHook (some [7])]) ∧
    (∀ ev ∈ (Reconcile (memReconciler none (certAlways (some bundleB)) none)
        (requestFor osmWebhookName)
        (worldWith (configNamed osmWebhookName [otherHook, injectorHook (some [7])]))).log,
      ev.isUpdate = false ∧ ev.isCertFetch = false) ∧
    (Reconcile (memReconciler none (certAlways (some bundleB)) none)
        (requestFor osmWebhookName)
        (worldWith (configNamed osmWebhookName [otherHook, injectorHook (some [7])]))).result =
      Result.zero ∧
    (Reconcile (memReconciler none (certAlways (some bundleB)) none)
        (requestFor osmWebhookName)
        (worldWith (configNamed osmWebhookName [otherHook, injectorHook (some [7])]))).err =
      none :=
  ⟨by decide,
   Reconcile_compliant_is_noop (memReconciler none (certAlways (some bundleB)) none)
    (requestFor osmWebhookName)
    (worldWith (configNamed osmWebhookName [otherHook, injectorHook (some [7])]))
    (configNamed osmWebhookName [otherHook, injectorHook (some [7])])
    (by decide) (by decide)⟩

/-- C6: when `Get` fails for a request naming the target, `Reconcile` makes no
other call (no certificate fetch, no `Update`), and the error it returns is nil
exactly when the `Get` error is a not-found error; any other `Get` error is
returned unchanged. -/
theorem Reconcile_get_error {σ : Type}
    (r : MutatingWebhookConfigurationReconciler σ) (req : Request) (w : σ) (e : Error)
    (hreq : req.Name = r.OsmWebhook)
    (hget : (r.Get w req.NamespacedName).2 = Answer.error e) :
    (Reconcile r req w).log = [Event.Get req.NamespacedName (Answer.error e)] ∧
    ((Reconcile r req w).err = none ↔ IsNotFound e = true) ∧
    (IsNotFound e = false → (Reconcile r req w).err = some e) ∧
    (Reconcile r req w).result = Result.zero := by
  rcases Reconcile_cases r req w with ⟨hne, -⟩ | ⟨-, e', he, h⟩ | ⟨-, i, hi, -, -⟩ | ⟨-, i, hi, -, -⟩
  · exact absurd hreq hne
  · rw [hget] at he
    cases he
    rw [h]
    refine ⟨rfl, ?_, ?_, rfl⟩
    · cases hnf : IsNotFound e <;> simp [IgnoreNotFound, hnf]
    · intro hnf
      simp [IgnoreNotFound, hnf]
  · rw [hget] at hi; cases hi
  · rw [hget] at hi; cases hi

/-- C6 at a concrete input: the store answers `Get` with a conflict-class
(not not-found) error. -/
theorem Reconcile_get_error_witness :
    (requestFor osmWebhookName).Name =
      (memReconciler (some conflictError) (certAlways (some bundleB)) none).OsmWebhook ∧
    ((memReconciler (some conflictError) (certAlways (some bundleB)) none).Get
        (worldWith (configNamed osmWebhookName [injectorHook none]))
        (requestFor osmWebhookName).NamespacedName).2 = Answer.error conflictError ∧
    (Reconcile (memReconciler (some conflictError) (certAlways (some bundleB)) none)
        (requestFor osmWebhookName)
        (worldWith (configNamed osmWebhookName [injectorHook none]))).err =
      some conflictError :=
  ⟨by decide, by decide,
   (Reconcile_get_error (memReconciler (some conflictError) (certAlways (some bundleB)) none)
      (requestFor osmWebhookName) (worldWith (configNamed osmWebhookName [injectorHook none]))
      conflictError (by decide) (by decide)).2.2.1 (by decide)⟩

/-- C8: an object other than the configured target is never acted upon.  When
the request name differs from `OsmWebhook`, or the fetched object's name does,
`Reconcile` makes no certificate fetch and no `Update`, leaves the stored
objects as they were, and returns the zero `Result` with a nil error; when the
request name differs it makes no call at all. -/
theorem Reconcile_ignores_other_objects {σ : Type}
    (r : MutatingWebhookConfigurationReconciler σ) (stored : σ → Store)
    (hreads : ReadsOnly r stored) (req : Request) (w : σ)
    (hother : req.Name ≠ r.OsmWebhook ∨
      ∃ inst, (r.Get w req.NamespacedName).2 = Answer.ok inst ∧ inst.Name ≠ r.OsmWebhook) :
    (∀ ev ∈ (Reconcile r req w).log, ev.isUpdate = false ∧ ev.isCertFetch = false) ∧
    stored (Reconcile r req w).world = stored w ∧
    (Reconcile r req w).result = Result.zero ∧ (Reconcile r req w).err = none ∧
    (req.Name ≠ r.OsmWebhook → (Reconcile r req w).log = [] ∧ (Reconcile r req w).world = w) := by
  rcases Reconcile_cases r req w with ⟨-, h⟩ | ⟨hreq, e, he, -⟩ | ⟨hreq, i, -, -, h⟩ |
    ⟨hreq, i, hi, hname, -⟩
  · rw [h]; simp
  · rcases hother with hne | ⟨inst, hinst, -⟩
    · exact absurd hreq hne
    · rw [hinst] at he; cases he
  · rw [h]
    refine ⟨by simp [Event.isUpdate, Event.isCertFetch], hreads.get_frame _ _, rfl, rfl, ?_⟩
    intro hne
    exact absurd hreq hne
  · rcases hother with hne | ⟨inst, hinst, hne⟩
    · exact absurd hreq hne
    · rw [hinst] at hi
      cases hi
      exact absurd hname hne

/-- C8 at a concrete input: a request for another object, which lacks a
bundle on its injector entry. -/
theorem Reconcile_ignores_other_objects_witness :
    ((requestFor "another-webhook").Name ≠
        (memReconciler none (certAlways (some bundleB)) none).OsmWebhook ∨
      ∃ inst, ((memReconciler none (certAlways (some bundleB)) none).Get
          (worldWith (configNamed "another-webhook" [injectorHook none]))
          (requestFor "another-webhook").NamespacedName).2 = Answer.ok inst ∧
        inst.Name ≠ (memReconciler none (certAlways (some bundleB)) none).OsmWebhook) ∧
    (Reconcile (memReconciler none (certAlways (some bundleB)) none)
        (requestFor "another-webhook")
        (worldWith (configNamed "another-webhook" [injectorHook none]))).log = [] ∧
    (Reconcile (memReconciler none (certAlways (some bundleB)) none)
        (requestFor "another-webhook")
        (worldWith (configNamed "another-webhook" [injectorHook none]))).world.store =
      (worldWith (configNamed "another-webhook" [injectorHook none])).store :=
  ⟨Or.inl (by decide),
   ((Reconcile_ignores_other_objects (memReconciler none (certAlways (some bundleB)) none)
      World.store (inMemory_lawful _ _ _ _ _ _ _).toReadsOnly (requestFor "another-webhook")
      (worldWith (configNamed "another-webhook" [injectorHook none]))
      (Or.inl (by decide))).2.2.2.2 (by decide)).1,
   (Reconcile_ignores_other_objects (memReconciler none (certAlways (some bundleB)) none)
      World.store (inMemory_lawful _ _ _ _ _ _ _).toReadsOnly (requestFor "another-webhook")
      (worldWith (configNamed "another-webhook" [injectorHook none]))
      (Or.inl (by decide))).2.1⟩

/-- C1: for a request naming the target whose fetched object has the target's
name and at least one entry named `injector.MutatingWebhookName` with a nil CA
bundle, if every call of the pass succeeds (the `Get`, every certificate fetch,
the `Update`), then the pass makes exactly one `Update`, the object passed to it
carries on every such entry the chain of a certificate fetched in the pass, and
`Reconcile` returns the zero `Result` and a nil error. -/
theorem Reconcile_repairs_missing_bundle {σ : Type}
    (r : MutatingWebhookConfigurationReconciler σ) (req : Request) (w : σ)
    (inst : MutatingWebhookConfiguration)
    (hreq : req.Name = r.OsmWebhook)
    (hget : (r.Get w req.NamespacedName).2 = Answer.ok inst)
    (hname : inst.Name = r.OsmWebhook)
    (hmissing : ∃ e ∈ inst.Webhooks,
      e.Name = r.MutatingWebhookName ∧ e.ClientConfig.CABundle = none)
    (hok : ∀ ev ∈ (Reconcile r req w).log, ev.succeeded = true) :
    ∃ updated,
      (Reconcile r req w).log.filter Event.isUpdate = [Event.Update updated none] ∧
      (∀ (i : Nat) (e : MutatingWebhook), inst.Webhooks[i]? = some e →
        e.Name = r.MutatingWebhookName → e.ClientConfig.CABundle = none →
        ∃ (c : Certificate) (e' : MutatingWebhook),
          certEvent r (Answer.ok c) ∈ (Reconcile r req w).log ∧
          updated.Webhooks[i]? = some e' ∧
          e'.ClientConfig.CABundle = c.GetCertificateChain) ∧
      (Reconcile r req w).err = none ∧ (Reconcile r req w).result = Result.zero := by
  have hany : inst.Webhooks.any (needsCABundle r) = true := by
    rcases hmissing with ⟨e, he, h1, h2⟩
    rw [List.any_eq_true]
    exact ⟨e, he, (needsCABundle_iff r e).2 ⟨h1, h2⟩⟩
  rcases Reconcile_cases r req w with ⟨hne, -⟩ | ⟨-, e, he, -⟩ | ⟨-, i, hi, hne, -⟩ |
    ⟨-, i, hi, -, h⟩
  · exact absurd hreq hne
  · rw [hget] at he; cases he
  · rw [hget] at hi; cases hi; exact absurd hname hne
  · rw [hget] at hi
    cases hi
    cases hs : scan r inst.Webhooks (r.Get w req.NamespacedName).1 with
    | error f =>
      exfalso
      have hmem := ((scan_events r _ _).2 f hs).1
      have := hok (certEvent r (Answer.error f.cause)) (by
        rw [h, hs]
        exact List.mem_cons_of_mem _ hmem)
      simp [certEvent, Event.succeeded] at this
    | ok s =>
      have hev := (scan_events r _ _).1 s hs
      have hsc := scan_ok r _ _ s hs
      have hb : s.shouldUpdate = true := by rw [hsc.2, hany]
      rw [hs] at h
      have hlog : (Reconcile r req w).log =
          Event.Get req.NamespacedName (Answer.ok inst) :: s.events ++
            [Event.Update { inst with Webhooks := s.Webhooks }
              (r.Update s.world { inst with Webhooks := s.Webhooks }).2] := by
        rw [h]; simp [finish, hb]
      have hresp : (r.Update s.world { inst with Webhooks := s.Webhooks }).2 = none := by
        have := hok (Event.Update { inst with Webhooks := s.Webhooks }
          (r.Update s.world { inst with Webhooks := s.Webhooks }).2) (by rw [hlog]; simp)
        cases hr : (r.Update s.world { inst with Webhooks := s.Webhooks }).2 with
        | none => rfl
        | some e => rw [hr] at this; simp [Event.succeeded] at this
      have hfilter : s.events.filter Event.isUpdate = [] := by
        rw [List.filter_eq_nil_iff]
        intro ev hevm
        rcases hev ev hevm with ⟨c, rfl⟩
        simp [certEvent, Event.isUpdate]
      refine ⟨{ inst with Webhooks := s.Webhooks }, ?_, ?_, ?_, ?_⟩
      · rw [hlog, hresp]
        simp [List.filter_cons, Event.isUpdate, hfilter]
      · intro i e hie h1 h2
        rcases forall₂_getElem? hsc.1 i e hie with ⟨e', he', hp⟩
        unfold Patched at hp
        rw [if_pos ((needsCABundle_iff r e).2 ⟨h1, h2⟩)] at hp
        rcases hp with ⟨c, hc, rfl⟩
        refine ⟨c, _, ?_, he', rfl⟩
        rw [hlog]
        simp [hc]
      · rw [h]; simp [finish, hb, hresp]
      · rw [h]; simp [finish, hb]

/-- C1 at a concrete input: the object `[other, injector without bundle]` and a
certificate source holding `bundleB`. -/
theorem Reconcile_repairs_missing_bundle_witness :
    (∀ ev ∈ (Reconcile (memReconciler none (certAlways (some bundleB)) none)
        (requestFor osmWebhookName)
        (worldWith (configNamed osmWebhookName [otherHook, injectorHook none]))).log,
      ev.succeeded = true) ∧
    ∃ updated,
      (Reconcile (memReconciler none (certAlways (some bundleB)) none)
        (requestFor osmWebhookName)
        (worldWith (configNamed osmWebhookName [otherHook, injectorHook none]))).log.filter
          Event.isUpdate = [Event.Update updated none] ∧
      (Reconcile (memReconciler none (certAlways (some bundleB)) none)
        (requestFor osmWebhookName)
        (worldWith (configNamed osmWebhookName [otherHook, injectorHook none]))).err = none :=
  ⟨by decide,
   (Reconcile_repairs_missing_bundle (memReconciler none (certAlways (some bundleB)) none)
      (requestFor osmWebhookName)
      (worldWith (configNamed osmWebhookName [otherHook, injectorHook none]))
      (configNamed osmWebhookName [otherHook, injectorHook none])
      (by decide) (by decide) (by decide) (by decide) (by decide)).imp
    (fun _ h => ⟨h.1, h.2.2.1⟩)⟩

/-- C3: in every pass that reaches `Update`, the object passed to `Update` is
the fetched object with the same name (and namespace and metadata) and an entry
sequence of the same length and order; every entry that is not both named
`injector.MutatingWebhookName` and without a CA bundle is identical to the
fetched one, and every other entry differs from the fetched one in its
`ClientConfig.CABundle` field only. -/
theorem Reconcile_update_frame {σ : Type}
    (r : MutatingWebhookConfigurationReconciler σ) (req : Request) (w : σ)
    (updated : MutatingWebhookConfiguration) (resp : Option Error)
    (hupd : Event.Update updated resp ∈ (Reconcile r req w).log) :
    ∃ inst, (r.Get w req.NamespacedName).2 = Answer.ok inst ∧
      updated.Name = inst.Name ∧ updated.Namespace = inst.Namespace ∧
      updated.Meta = inst.Meta ∧
      updated.Webhooks.length = inst.Webhooks.length ∧
      ∀ (i : Nat) (e : MutatingWebhook), inst.Webhooks[i]? = some e →
        ∃ e' : MutatingWebhook, updated.Webhooks[i]? = some e' ∧
          (¬ (e.Name = r.MutatingWebhookName ∧ e.ClientConfig.CABundle = none) → e' = e) ∧
          e'.Name = e.Name ∧ e'.Rest = e.Rest ∧
          e'.ClientConfig.URL = e.ClientConfig.URL ∧
          e'.ClientConfig.Service = e.ClientConfig.Service := by
  rcases update_in_log r req w updated resp hupd with ⟨-, inst, s, hget, -, hs, -, hu, -, -⟩
  have hsc := scan_ok r _ _ s hs
  refine ⟨inst, hget, by rw [hu], by rw [hu], by rw [hu], ?_, ?_⟩
  · rw [hu]
    exact hsc.1.length_eq.symm
  · intro i e hie
    rcases forall₂_getElem? hsc.1 i e hie with ⟨e', he', hp⟩
    refine ⟨e', by rw [hu]; exact he', ?_⟩
    unfold Patched at hp
    by_cases hn : needsCABundle r e = true
    · rw [if_pos hn] at hp
      rcases hp with ⟨c, -, rfl⟩
      exact ⟨fun hnot => absurd ((needsCABundle_iff r e).1 hn) hnot, rfl, rfl, rfl, rfl⟩
    · rw [if_neg hn] at hp
      subst hp
      exact ⟨fun _ => rfl, rfl, rfl, rfl, rfl⟩

/-- C3 at a concrete input, the scenario of the specification: the entries
`[other with a bundle, injector without]` and the trust bundle `bundleB` give
`[other unchanged, injector with bundleB]`, and the pass succeeds. -/
theorem Reconcile_update_frame_witness :
    Event.Update (configNamed osmWebhookName [otherHook, injectorHook (some bundleB)]) none ∈
      (Reconcile (memReconciler none (certAlways (some bundleB)) none)
        (requestFor osmWebhookName)
        (worldWith (configNamed osmWebhookName [otherHook, injectorHook none]))).log ∧
    (Reconcile (memReconciler none (certAlways (some bundleB)) none)
        (requestFor osmWebhookName)
        (worldWith (configNamed osmWebhookName [otherHook, injectorHook none]))).err = none ∧
    ∃ inst, ((memReconciler none (certAlways (some bundleB)) none).Get
        (worldWith (configNamed osmWebhookName [otherHook, injectorHook none]))
        (requestFor osmWebhookName).NamespacedName).2 = Answer.ok inst ∧
      [otherHook, injectorHook (some bundleB)].length = inst.Webhooks.length :=
  ⟨by decide, by decide,
   (Reconcile_update_frame (memReconciler none (certAlways (some bundleB)) none)
      (requestFor osmWebhookName)
      (worldWith (configNamed osmWebhookName [otherHook, injectorHook none]))
      (configNamed osmWebhookName [otherHook, injectorHook (some bundleB)]) none
      (by decide)).imp (fun _ h => ⟨h.1, h.2.2.2.2.1⟩)⟩

/-- C5: if a certificate fetch made during the scan fails, whichever entry it
was made for, `Reconcile` makes no `Update` call, the stored objects are as they
were before the pass, and the returned error is non-nil. -/
theorem Reconcile_fetch_failure {σ : Type}
    (r : MutatingWebhookConfigurationReconciler σ) (stored : σ → Store)
    (hreads : ReadsOnly r stored) (req : Request) (w : σ) (ns n : String) (e : Error)
    (hfail : Event.GetCertFromKubernetes ns n (Answer.error e) ∈ (Reconcile r req w).log) :
    (∀ ev ∈ (Reconcile r req w).log, ev.isUpdate = false) ∧
    stored (Reconcile r req w).world = stored w ∧
    (Reconcile r req w).err ≠ none := by
  rcases fetch_error_in_log r req w ns n e hfail with ⟨inst, f, -, hs, h⟩
  have hev := ((scan_events r _ _).2 f hs).2
  have hfr := (scan_frame r stored hreads.cert_frame _ _).2 f hs
  rw [h]
  refine ⟨?_, ?_, by simp [finish]⟩
  · intro ev hevm
    simp only [finish, List.mem_cons] at hevm
    rcases hevm with rfl | hevm
    · rfl
    · rcases hev ev hevm with ⟨a, rfl⟩
      rfl
  · simp only [finish]
    rw [hfr]
    exact hreads.get_frame _ _

/-- C5 at a concrete input: two injector entries lack a bundle; the fetch for
the first succeeds, the fetch for the second fails. -/
theorem Reconcile_fetch_failure_witness :
    Event.GetCertFromKubernetes "osm-system" "mutating-webhook-cert-secret"
        (Answer.error secretError) ∈
      (Reconcile (memReconciler none (certOnce (some bundleB) secretError) none)
        (requestFor osmWebhookName)
        (worldWith (configNamed osmWebhookName [injectorHook none, injectorHook none]))).log ∧
    (∀ ev ∈ (Reconcile (memReconciler none (certOnce (some bundleB) secretError) none)
        (requestFor osmWebhookName)
        (worldWith (configNamed osmWebhookName [injectorHook none, injectorHook none]))).log,
      ev.isUpdate = false) ∧
    (Reconcile (memReconciler none (certOnce (some bundleB) secretError) none)
        (requestFor osmWebhookName)
        (worldWith (configNamed osmWebhookName [injectorHook none, injectorHook none]))).world.store
      = (worldWith (configNamed osmWebhookName [injectorHook none, injectorHook none])).store ∧
    (Reconcile (memReconciler none (certOnce (some bundleB) secretError) none)
        (requestFor osmWebhookName)
        (worldWith (configNamed osmWebhookName [injectorHook none, injectorHook none]))).err
      ≠ none :=
  ⟨by decide,
   Reconcile_fetch_failure (memReconciler none (certOnce (some bundleB) secretError) none)
    World.store (inMemory_lawful _ _ _ _ _ _ _).toReadsOnly (requestFor osmWebhookName)
    (worldWith (configNamed osmWebhookName [injectorHook none, injectorHook none]))
    "osm-system" "mutating-webhook-cert-secret" secretError (by decide)⟩

/-- C7: when `Update` fails, the error `Reconcile` returns is nil exactly when
the `Update` error is a not-found error; any other `Update` error, a conflict
included, is returned as it is; and the stored objects are as they were before
the pass. -/
theorem Reconcile_update_error {σ : Type}
    (r : MutatingWebhookConfigurationReconciler σ) (stored : σ → Store)
    (hlaw : LawfulStore r stored) (req : Request) (w : σ)
    (updated : MutatingWebhookConfiguration) (e : Error)
    (hupd : Event.Update updated (some e) ∈ (Reconcile r req w).log) :
    ((Reconcile r req w).err = none ↔ IsNotFound e = true) ∧
    (IsNotFound e = false → (Reconcile r req w).err = some e) ∧
    (e.Reason = StatusReason.Conflict → (Reconcile r req w).err = some e) ∧
    (Reconcile r req w).result = Result.zero ∧
    stored (Reconcile r req w).world = stored w := by
  rcases update_in_log r req w updated (some e) hupd with
    ⟨-, inst, s, -, -, hs, hb, hu, hresp, h⟩
  subst hu
  have hfr := (scan_frame r stored hlaw.cert_frame _ _).1 s hs
  have herr : (Reconcile r req w).err = IgnoreNotFound e := by
    rw [h]; simp [finish, hb, ← hresp]
  refine ⟨?_, ?_, ?_, by rw [h]; simp [finish, hb], ?_⟩
  · rw [herr]
    cases hnf : IsNotFound e <;> simp [IgnoreNotFound, hnf]
  · intro hnf
    rw [herr]
    simp [IgnoreNotFound, hnf]
  · intro hc
    rw [herr]
    simp [IgnoreNotFound, IsNotFound, hc]
  · rw [h]
    simp only [finish, hb, if_true]
    rw [hlaw.update_error _ _ e hresp.symm, hfr]
    exact hlaw.get_frame _ _

/-- C7 at a concrete input: the store rejects the write with a conflict. -/
theorem Reconcile_update_error_witness :
    Event.Update (configNamed osmWebhookName [otherHook, injectorHook (some bundleB)])
        (some conflictError) ∈
      (Reconcile (memReconciler none (certAlways (some bundleB)) (some conflictError))
        (requestFor osmWebhookName)
        (worldWith (configNamed osmWebhookName [otherHook, injectorHook none]))).log ∧
    (Reconcile (memReconciler none (certAlways (some bundleB)) (some conflictError))
        (requestFor osmWebhookName)
        (worldWith (configNamed osmWebhookName [otherHook, injectorHook none]))).err =
      some conflictError ∧
    (Reconcile (memReconciler none (certAlways (some bundleB)) (some conflictError))
        (requestFor osmWebhookName)
        (worldWith (configNamed osmWebhookName [otherHook, injectorHook none]))).world.store =
      (worldWith (configNamed osmWebhookName [otherHook, injectorHook none])).store :=
  ⟨by decide,
   (Reconcile_update_error (memReconciler none (certAlways (some bundleB)) (some conflictError))
      World.store (inMemory_lawful _ _ _ _ _ _ _) (requestFor osmWebhookName)
      (worldWith (configNamed osmWebhookName [otherHook, injectorHook none]))
      (configNamed osmWebhookName [otherHook, injectorHook (some bundleB)]) conflictError
      (by decide)).2.1 (by decide),
   (Reconcile_update_error (memReconciler none (certAlways (some bundleB)) (some conflictError))
      World.store (inMemory_lawful _ _ _ _ _ _ _) (requestFor osmWebhookName)
      (worldWith (configNamed osmWebhookName [otherHook, injectorHook none]))
      (configNamed osmWebhookName [otherHook, injectorHook (some bundleB)]) conflictError
      (by decide)).2.2.2.2⟩

/-- C4, the claim as stated fails: the injector entry of the target object
carries a zero-length, non-nil CA bundle, the certificate source would answer
with `bundleB` and the store would accept the write, and yet the pass makes the
one `Get` and no `Update`, and the stored entry keeps its zero-length bundle. -/
theorem empty_bundle_is_not_repaired :
    (injectorHook (some [])).Name =
      (memReconciler none (certAlways (some bundleB)) none).MutatingWebhookName ∧
    (injectorHook (some [])).ClientConfig.CABundle = some [] ∧
    ((memReconciler none (certAlways (some bundleB)) none).GetCertFromKubernetes
        (worldWith (configNamed osmWebhookName [injectorHook (some [])]))
        "osm-system" "mutating-webhook-cert-secret").2 = Answer.ok { CertChain := some bundleB } ∧
    ((memReconciler none (certAlways (some bundleB)) none).Update
        (worldWith (configNamed osmWebhookName [injectorHook (some [])]))
        (configNamed osmWebhookName [injectorHook (some bundleB)])).2 = none ∧
    (Reconcile (memReconciler none (certAlways (some bundleB)) none)
        (requestFor osmWebhookName)
        (worldWith (configNamed osmWebhookName [injectorHook (some [])]))).log =
      [Event.Get (requestFor osmWebhookName).NamespacedName
        (Answer.ok (configNamed osmWebhookName [injectorHook (some [])]))] ∧
    (Reconcile (memReconciler none (certAlways (some bundleB)) none)
        (requestFor osmWebhookName)
        (worldWith (configNamed osmWebhookName [injectorHook (some [])]))).world.store
        (requestFor osmWebhookName).NamespacedName =
      some (configNamed osmWebhookName [injectorHook (some [])]) := by
  decide

/-- C4 as amended: an entry named `injector.MutatingWebhookName` is marked as
needing update exactly when its CA bundle is nil; a zero-length non-nil bundle
counts as present.  So when the injector entries of the fetched object carry
zero-length non-nil bundles, `Reconcile` makes no certificate fetch and no
`Update` and returns success, and in any `Update` a pass does make, an entry
with a zero-length non-nil bundle is passed on as it was fetched. -/
theorem Reconcile_marks_nil_bundle_only {σ : Type}
    (r : MutatingWebhookConfigurationReconciler σ) (req : Request) (w : σ)
    (inst : MutatingWebhookConfiguration)
    (hget : (r.Get w req.NamespacedName).2 = Answer.ok inst) :
    (∀ e : MutatingWebhook, needsCABundle r e = true ↔
      e.Name = r.MutatingWebhookName ∧ e.ClientConfig.CABundle = none) ∧
    ((∀ e ∈ inst.Webhooks, e.Name = r.MutatingWebhookName →
        e.ClientConfig.CABundle = some []) →
      (∀ ev ∈ (Reconcile r req w).log, ev.isUpdate = false ∧ ev.isCertFetch = false) ∧
      (Reconcile r req w).result = Result.zero ∧ (Reconcile r req w).err = none) ∧
    (∀ (updated : MutatingWebhookConfiguration) (resp : Option Error),
      Event.Update updated resp ∈ (Reconcile r req w).log →
      ∀ (i : Nat) (e : MutatingWebhook), inst.Webhooks[i]? = some e →
        e.ClientConfig.CABundle = some [] → updated.Webhooks[i]? = some e) := by
  refine ⟨needsCABundle_iff r, ?_, ?_⟩
  · intro hempty
    have hnone : inst.Webhooks.any (needsCABundle r) = false := by
      rw [List.any_eq_false]
      intro e he hn
      rw [needsCABundle_iff] at hn
      rw [hempty e he hn.1] at hn
      exact absurd hn.2 (by simp)
    have h := Reconcile_none_needed r req w inst hget hnone
    exact ⟨h.1, h.2.1, h.2.2.1⟩
  · intro updated resp hupd i e hie hb
    rcases update_in_log r req w updated resp hupd with ⟨-, inst', s, hget', -, hs, -, hu, -, -⟩
    rw [hget] at hget'
    cases hget'
    rcases forall₂_getElem? (scan_ok r _ _ s hs).1 i e hie with ⟨e', he', hp⟩
    have hn : ¬ needsCABundle r e = true := by
      rw [needsCABundle_iff, hb]
      simp
    unfold Patched at hp
    rw [if_neg hn] at hp
    subst hp
    rw [hu]
    exact he'

/-- C4 as amended, at a concrete input: the injector entry carries a
zero-length bundle and the pass is a no-op. -/
theorem Reconcile_marks_nil_bundle_only_witness :
    ((memReconciler none (certAlways (some bundleB)) none).Get
        (worldWith (configNamed osmWebhookName [otherHook, injectorHook (some [])]))
        (requestFor osmWebhookName).NamespacedName).2 =
      Answer.ok (configNamed osmWebhookName [otherHook, injectorHook (some [])]) ∧
    (∀ ev ∈ (Reconcile (memReconciler none (certAlways (some bundleB)) none)
        (requestFor osmWebhookName)
        (worldWith (configNamed osmWebhookName [otherHook, injectorHook (some [])]))).log,
      ev.isUpdate = false ∧ ev.isCertFetch = false) ∧
    (Reconcile (memReconciler none (certAlways (some bundleB)) none)
        (requestFor osmWebhookName)
        (worldWith (configNamed osmWebhookName [otherHook, injectorHook (some [])]))).result =
      Result.zero ∧
    (Reconcile (memReconciler none (certAlways (some bundleB)) none)
        (requestFor osmWebhookName)
        (worldWith (configNamed osmWebhookName [otherHook, injectorHook (some [])]))).err =
      none :=
  ⟨by decide,
   (Reconcile_marks_nil_bundle_only (memReconciler none (certAlways (some bundleB)) none)
      (requestFor osmWebhookName)
      (worldWith (configNamed osmWebhookName [otherHook, injectorHook (some [])]))
      (configNamed osmWebhookName [otherHook, injectorHook (some [])])
      (by decide)).2.1 (by decide)⟩

/-- C10: if a pass ends with a successful `Update` and every certificate chain
fetched in the pass is non-nil, then the object written is the one stored, no
entry of it named `injector.MutatingWebhookName` has a nil CA bundle, and a pass
that fetches that object makes no certificate fetch and no `Update` and returns
success.  The non-nil hypothesis is needed: with a certificate source that
answers with a nil chain, the pass that follows a successful `Update` makes
another `Update`. -/
theorem Reconcile_converges_after_repair :
    (∀ (σ : Type) (r : MutatingWebhookConfigurationReconciler σ) (stored : σ → Store)
      (req : Request) (w : σ) (updated : MutatingWebhookConfiguration),
      LawfulStore r stored →
      Event.Update updated none ∈ (Reconcile r req w).log →
      (∀ c : Certificate, certEvent r (Answer.ok c) ∈ (Reconcile r req w).log →
        c.GetCertificateChain ≠ none) →
      stored (Reconcile r req w).world updated.key = some updated ∧
      (∀ e ∈ updated.Webhooks, e.Name = r.MutatingWebhookName →
        e.ClientConfig.CABundle ≠ none) ∧
      ∀ w2 : σ, (r.Get w2 req.NamespacedName).2 = Answer.ok updated →
        (Reconcile r req w2).log = [Event.Get req.NamespacedName (Answer.ok updated)] ∧
        (Reconcile r req w2).result = Result.zero ∧ (Reconcile r req w2).err = none) ∧
    (Event.Update (configNamed osmWebhookName [injectorHook none]) none ∈
        (Reconcile (memReconciler none (certAlways none) none) (requestFor osmWebhookName)
          (worldWith (configNamed osmWebhookName [injectorHook none]))).log ∧
      Event.Update (configNamed osmWebhookName [injectorHook none]) none ∈
        (Reconcile (memReconciler none (certAlways none) none) (requestFor osmWebhookName)
          (Reconcile (memReconciler none (certAlways none) none) (requestFor osmWebhookName)
            (worldWith (configNamed osmWebhookName [injectorHook none]))).world).log) := by
  refine ⟨?_, by decide⟩
  intro σ r stored req w updated hlaw hupd hchain
  rcases update_in_log r req w updated none hupd with
    ⟨hreq, inst, s, -, hname, hs, hb, hu, hresp, h⟩
  have hsc := scan_ok r _ _ s hs
  have hentries : ∀ e ∈ updated.Webhooks, e.Name = r.MutatingWebhookName →
      e.ClientConfig.CABundle ≠ none := by
    intro e' he' hn'
    rw [hu] at he'
    rcases forall₂_mem_right hsc.1 e' he' with ⟨e, -, hp⟩
    unfold Patched at hp
    by_cases hn : needsCABundle r e = true
    · rw [if_pos hn] at hp
      rcases hp with ⟨c, hc, rfl⟩
      refine hchain c ?_
      rw [h]
      simp [finish, hb, hc]
    · rw [if_neg hn] at hp
      subst hp
      intro hnil
      exact hn ((needsCABundle_iff r e').2 ⟨hn', hnil⟩)
  refine ⟨?_, hentries, ?_⟩
  · rw [h]
    simp only [finish, hb, if_true]
    rw [← hu, hlaw.update_ok _ _ hresp.symm]
    simp [Store.put]
  · intro w2 hget2
    have hnone : updated.Webhooks.any (needsCABundle r) = false := by
      rw [List.any_eq_false]
      intro e he hn
      rw [needsCABundle_iff] at hn
      exact hentries e he hn.1 hn.2
    have h2 := Reconcile_none_needed r req w2 updated hget2 hnone
    exact ⟨h2.2.2.2 hreq, h2.2.1, h2.2.2.1⟩

/-- C10 at a concrete input: the repair of `[other, injector without bundle]`
with `bundleB`, followed by a second pass from the world the first one left. -/
theorem Reconcile_converges_after_repair_witness :
    Event.Update (configNamed osmWebhookName [otherHook, injectorHook (some bundleB)]) none ∈
      (Reconcile (memReconciler none (certAlways (some bundleB)) none)
        (requestFor osmWebhookName)
        (worldWith (configNamed osmWebhookName [otherHook, injectorHook none]))).log ∧
    (Reconcile (memReconciler none (certAlways (some bundleB)) none)
        (requestFor osmWebhookName)
        (Reconcile (memReconciler none (certAlways (some bundleB)) none)
          (requestFor osmWebhookName)
          (worldWith (configNamed osmWebhookName [otherHook, injectorHook none]))).world).log =
      [Event.Get (requestFor osmWebhookName).NamespacedName
        (Answer.ok (configNamed osmWebhookName [otherHook, injectorHook (some bundleB)]))] :=
  ⟨by decide,
   ((Reconcile_converges_after_repair.1 World
      (memReconciler none (certAlways (some bundleB)) none) World.store
      (requestFor osmWebhookName)
      (worldWith (configNamed osmWebhookName [otherHook, injectorHook none]))
      (configNamed osmWebhookName [otherHook, injectorHook (some bundleB)])
      (inMemory_lawful _ _ _ _ _ _ _) (by decide)
      (by
        intro c hc
        have hlog : (Reconcile (memReconciler none (certAlways (some bundleB)) none)
            (requestFor osmWebhookName)
            (worldWith (configNamed osmWebhookName [otherHook, injectorHook none]))).log =
            [Event.Get (requestFor osmWebhookName).NamespacedName
               (Answer.ok (configNamed osmWebhookName [otherHook, injectorHook none])),
             Event.GetCertFromKubernetes "osm-system" "mutating-webhook-cert-secret"
               (Answer.ok { CertChain := some bundleB }),
             Event.Update
               (configNamed osmWebhookName [otherHook, injectorHook (some bundleB)]) none] := by
          decide
        rw [hlog] at hc
        simp only [certEvent, List.mem_cons, List.not_mem_nil, or_false] at hc
        rcases hc with hc | hc | hc
        · cases hc
        · cases hc
          simp [Certificate.GetCertificateChain]
        · cases hc)).2.2
      (Reconcile (memReconciler none (certAlways (some bundleB)) none)
        (requestFor osmWebhookName)
        (worldWith (configNamed osmWebhookName [otherHook, injectorHook none]))).world
      (by decide)).1⟩

/-- C9: idempotence.  With a store and a certificate source that keep the store
contract and answer the same way whenever they are asked, for every starting
world and every request, running `Reconcile` a second time from the world the
first pass left gives the same stored objects as the first pass alone. -/
theorem Reconcile_idempotent {σ : Type} (r : MutatingWebhookConfigurationReconciler σ)
    (stored : σ → Store) (hrep : Repeatable r stored) (req : Request) (w : σ) :
    stored (Reconcile r req (Reconcile r req w).world).world =
      stored (Reconcile r req w).world := by
  have hlaw := hrep.toLawfulStore
  rcases Reconcile_stored r stored hlaw req w with hl | ⟨inst, s, hget, hs, hst⟩
  · rw [Reconcile_stored_same r stored hrep req _ w hl, hl]
  · rcases Reconcile_stored r stored hlaw req (Reconcile r req w).world with
      hl2 | ⟨inst2, s2, hget2, hs2, hst2⟩
    · exact hl2
    · have hstored := hrep.get_stored _ _ _ hget2
      have hstored0 := hrep.get_stored _ _ _ hget
      rw [hst] at hstored
      have hweb : s2.Webhooks = s.Webhooks ∧
          ({ inst2 with Webhooks := s.Webhooks } : MutatingWebhookConfiguration) =
            { inst with Webhooks := s.Webhooks } := by
        by_cases hk : req.NamespacedName =
            MutatingWebhookConfiguration.key { inst with Webhooks := s.Webhooks }
        · simp only [Store.put, hk, if_true, Option.some.injEq] at hstored
          subst hstored
          exact ⟨scan_rescan r hrep.cert_same inst.Webhooks _ _ s s2 hs hs2, rfl⟩
        · simp only [Store.put, hk, if_false] at hstored
          rw [hstored0] at hstored
          simp only [Option.some.injEq] at hstored
          subst hstored
          rcases scan_same r hrep.cert_same inst.Webhooks _
            (r.Get (Reconcile r req w).world req.NamespacedName).1 s hs with ⟨s', hs', hw', -⟩
          rw [hs2] at hs'
          cases hs'
          exact ⟨hw', rfl⟩
      rw [hst2, hweb.1, hweb.2, hst, Store.put_put]

/-- C9 at a concrete input: the repair of `[other, injector without bundle]`
with `bundleB`, run twice. -/
theorem Reconcile_idempotent_witness :
    (Reconcile (memReconciler none (fun _ => Answer.ok { CertChain := some bundleB }) none)
        (requestFor osmWebhookName)
        (Reconcile (memReconciler none (fun _ => Answer.ok { CertChain := some bundleB }) none)
          (requestFor osmWebhookName)
          (worldWith (configNamed osmWebhookName [otherHook, injectorHook none]))).world).world.store
      =
    (Reconcile (memReconciler none (fun _ => Answer.ok { CertChain := some bundleB }) none)
        (requestFor osmWebhookName)
        (worldWith (configNamed osmWebhookName [otherHook, injectorHook none]))).world.store ∧
    (Reconcile (memReconciler none (fun _ => Answer.ok { CertChain := some bundleB }) none)
        (requestFor osmWebhookName)
        (worldWith (configNamed osmWebhookName [otherHook, injectorHook none]))).world.store
        (requestFor osmWebhookName).NamespacedName =
      some (configNamed osmWebhookName [otherHook, injectorHook (some bundleB)]) :=
  ⟨Reconcile_idempotent
    (memReconciler none (fun _ => Answer.ok { CertChain := some bundleB }) none) World.store
    (inMemory_repeatable none (Answer.ok { CertChain := some bundleB }) none _ _ _ _)
    (requestFor osmWebhookName)
    (worldWith (configNamed osmWebhookName [otherHook, injectorHook none])),
   by decide⟩

/-- Idempotence does need a certificate source that answers the same way each
time: with `certUnsteady` and two injector entries without a bundle, the first
pass stores `[bundleB, nil]` and the second pass stores `[bundleB, bundleB]`. -/
theorem unsteady_source_breaks_idempotence :
    (Reconcile (memReconciler none certUnsteady none) (requestFor osmWebhookName)
        (worldWith (configNamed osmWebhookName [injectorHook none, injectorHook none]))).world.store
        (requestFor osmWebhookName).NamespacedName =
      some (configNamed osmWebhookName [injectorHook (some bundleB), injectorHook none]) ∧
    (Reconcile (memReconciler none certUnsteady none) (requestFor osmWebhookName)
        (Reconcile (memReconciler none certUnsteady none) (requestFor osmWebhookName)
          (worldWith (configNamed osmWebhookName
            [injectorHook none, injectorHook none]))).world).world.store
        (requestFor osmWebhookName).NamespacedName =
      some (configNamed osmWebhookName
        [injectorHook (some bundleB), injectorHook (some bundleB)]) := by
  decide

end Reconciler
